import Mathlib

/-
Verification of the slog_color handler (package logger).

The development shallowly embeds the handler source:
  - the JSON syntax check behind isJSON (json.Unmarshal into a RawMessage),
  - json.MarshalIndent with a two-space indent,
  - formatValue / formatAnyValue and the fmt "%v" rendering of the results,
  - processAttr / processAttrs (attribute rendering, nested groups),
  - Handle (timestamp, level tag, group prefix, message, attributes, newline,
    hook invocation), modelled as the list of externally visible events,
  - the handler struct with its Go slices (backing store, offset, length,
    capacity) so that WithGroup / WithAttrs aliasing behaviour is captured,
    together with SetHook mutation on a heap of handler values.

Machine integers do not overflow in any modelled path, levels are slog's
small named constants, so Int / Nat are used directly.  The value kinds
float64, duration and time.Time are not exercised by any verified property
and are left out of the value type; every other branch follows the source.
-/

namespace SlogColor

/-! ## JSON syntax check (Go encoding/json validity, used by isJSON) -/

def jsonWS (c : Char) : Bool :=
  c = ' ' || c = '\t' || c = '\n' || c = '\r'

def skipWS : List Char → List Char
  | [] => []
  | c :: cs => if jsonWS c then skipWS cs else c :: cs

def isDigitCh (c : Char) : Bool := '0' ≤ c && c ≤ '9'

def isHexCh (c : Char) : Bool :=
  isDigitCh c || ('a' ≤ c && c ≤ 'f') || ('A' ≤ c && c ≤ 'F')

def dropDigits : List Char → List Char
  | [] => []
  | c :: cs => if isDigitCh c then dropDigits cs else c :: cs

def hasDigit : List Char → Bool
  | [] => false
  | c :: _ => isDigitCh c

/-- body of a JSON string, entered after the opening quote -/
def pStrBody : List Char → Option (List Char)
  | [] => none
  | '"' :: r => some r
  | '\\' :: e :: r =>
    if e = '"' || e = '\\' || e = '/' || e = 'b' || e = 'f' ||
        e = 'n' || e = 'r' || e = 't' then
      pStrBody r
    else if e = 'u' then
      match r with
      | a :: b :: c :: d :: r2 =>
        if isHexCh a && isHexCh b && isHexCh c && isHexCh d then
          pStrBody r2
        else none
      | _ => none
    else none
  | c :: r => if c.toNat < 32 then none else pStrBody r

/-- fraction and exponent part of a JSON number -/
def pFracExp (cs : List Char) : Option (List Char) :=
  let afterFrac :=
    match cs with
    | '.' :: r => if hasDigit r then some (dropDigits r) else none
    | _ => some cs
  match afterFrac with
  | none => none
  | some cs2 =>
    match cs2 with
    | 'e' :: r | 'E' :: r =>
      let r1 := match r with
        | '+' :: r2 => r2
        | '-' :: r2 => r2
        | _ => r
      if hasDigit r1 then some (dropDigits r1) else none
    | _ => some cs2

/-- a JSON number: optional minus, 0 or [1-9]digits, fraction, exponent -/
def pNum (cs : List Char) : Option (List Char) :=
  let cs1 := match cs with
    | '-' :: r => r
    | _ => cs
  match cs1 with
  | '0' :: r => pFracExp r
  | c :: r => if '1' ≤ c && c ≤ '9' then pFracExp (dropDigits r) else none
  | [] => none

/-- parser modes: a value, or the inside of an object / array
    (the flag records whether a closing bracket may come immediately) -/
inductive JMode where
  | val
  | obj (first : Bool)
  | arr (first : Bool)

/-- fuel-indexed recursive descent over one JSON value; returns the rest
    of the input on success -/
def pAny : Nat → JMode → List Char → Option (List Char)
  | 0, _, _ => none
  | fu + 1, .val, cs =>
    match cs with
    | '\x7b' :: r => pAny fu (.obj true) (skipWS r)
    | '[' :: r => pAny fu (.arr true) (skipWS r)
    | '"' :: r => pStrBody r
    | 't' :: 'r' :: 'u' :: 'e' :: r => some r
    | 'f' :: 'a' :: 'l' :: 's' :: 'e' :: r => some r
    | 'n' :: 'u' :: 'l' :: 'l' :: r => some r
    | _ => pNum cs
  | fu + 1, .obj first, cs =>
    match cs with
    | '\x7d' :: r => if first then some r else none
    | '"' :: r =>
      match pStrBody r with
      | none => none
      | some r2 =>
        match skipWS r2 with
        | ':' :: r3 =>
          match pAny fu .val (skipWS r3) with
          | none => none
          | some r4 =>
            match skipWS r4 with
            | ',' :: r5 => pAny fu (.obj false) (skipWS r5)
            | '\x7d' :: r5 => some r5
            | _ => none
        | _ => none
    | _ => none
  | fu + 1, .arr first, cs =>
    match cs with
    | ']' :: r => if first then some r else none
    | _ =>
      match pAny fu .val cs with
      | none => none
      | some r2 =>
        match skipWS r2 with
        | ',' :: r3 => pAny fu (.arr false) (skipWS r3)
        | ']' :: r3 => some r3
        | _ => none

/-- isJSON: json.Unmarshal([]byte(str), new RawMessage) == nil, i.e. the
    whole input is one syntactically valid JSON value (whitespace around
    it allowed).  The fuel bound is generous: the parser consumes at
    least one character every two recursive steps. -/
def isJSON (s : String) : Bool :=
  match pAny (2 * s.data.length + 4) .val (skipWS s.data) with
  | some rest => (skipWS rest).isEmpty
  | none => false

/-! ## json.MarshalIndent(value, "", "  ") on a tree of marshalable data -/

/-- a JSON-marshalable Go value (struct / map / slice of basic data);
    field order is the marshal order Go would use -/
inductive Json where
  | jNull
  | jBool (b : Bool)
  | jInt (n : Int)
  | jStr (s : String)
  | jArr (xs : List Json)
  | jObj (fields : List (String × Json))

def hexDigitCh (n : Nat) : Char :=
  if n < 10 then Char.ofNat (48 + n) else Char.ofNat (87 + n)

/-- encoding/json string escaping (with the default HTML escaping) -/
def escChar (c : Char) : String :=
  if c = '"' then "\\\""
  else if c = '\\' then "\\\\"
  else if c = '\n' then "\\n"
  else if c = '\r' then "\\r"
  else if c = '\t' then "\\t"
  else if c = '<' then "\\u003c"
  else if c = '>' then "\\u003e"
  else if c = '&' then "\\u0026"
  else if c.toNat < 32 then
    "\\u00" ++ String.mk [hexDigitCh (c.toNat / 16), hexDigitCh (c.toNat % 16)]
  else if c.toNat = 8232 then "\\u2028"
  else if c.toNat = 8233 then "\\u2029"
  else String.mk [c]

def qstr (s : String) : String :=
  "\"" ++ String.join (s.data.map escChar) ++ "\""

/-- the indentation in front of an element at depth d (indent "  ") -/
def indentN : Nat → String
  | 0 => ""
  | n + 1 => indentN n ++ "  "

mutual

/-- one marshaled value at depth d, as json.MarshalIndent lays it out -/
def mVal (d : Nat) : Json → String
  | .jNull => "null"
  | .jBool true => "true"
  | .jBool false => "false"
  | .jInt n => toString n
  | .jStr s => qstr s
  | .jArr [] => "[]"
  | .jArr (x :: xs) => "[\n" ++ mItems (d + 1) (x :: xs) ++ "\n" ++ indentN d ++ "]"
  | .jObj [] => "\x7b\x7d"
  | .jObj (f :: fs) => "\x7b\n" ++ mFields (d + 1) (f :: fs) ++ "\n" ++ indentN d ++ "\x7d"

def mItems (d : Nat) : List Json → String
  | [] => ""
  | [x] => indentN d ++ mVal d x
  | x :: y :: xs => indentN d ++ mVal d x ++ ",\n" ++ mItems d (y :: xs)

def mFields (d : Nat) : List (String × Json) → String
  | [] => ""
  | [(k, v)] => indentN d ++ qstr k ++ ": " ++ mVal d v
  | (k, v) :: g :: fs =>
    indentN d ++ qstr k ++ ": " ++ mVal d v ++ ",\n" ++ mFields d (g :: fs)

end

/-- json.MarshalIndent(value, "", "  ") rendered to a string -/
def marshalIndent2 (j : Json) : String := mVal 0 j

/-! ## the value model: slog attribute values and Go "any" payloads -/

/-- an opaque "any" payload handed to formatAnyValue.  goRepr is the
    value's default fmt stringification, carried because the abstraction
    cannot recover it from the structure. -/
inductive AnyVal where
  | aErr (msg : String)
  | aStr (s : String)
  | aJson (goRepr : String) (j : Json)
  | aOpaque (goRepr : String)

def AnyVal.isErrVal : AnyVal → Bool
  | .aErr _ => true
  | _ => false

def AnyVal.isStrVal : AnyVal → Bool
  | .aStr _ => true
  | _ => false

/-- slog.Value restricted to the kinds the verified properties exercise
    (string, int64, uint64, bool, group, any); an attribute is a key
    paired with a value, a group holds child attributes in order -/
inductive SValue where
  | vString (s : String)
  | vInt64 (i : Int)
  | vUint64 (n : Nat)
  | vBool (b : Bool)
  | vGroup (cs : List (String × SValue))
  | vAny (a : AnyVal)

abbrev SAttr := String × SValue

/-- UTF-8 encoding of one code point -/
def utf8Char (n : Nat) : List Nat :=
  if n < 128 then [n]
  else if n < 2048 then [192 + n / 64, 128 + n % 64]
  else if n < 65536 then [224 + n / 4096, 128 + (n / 64) % 64, 128 + n % 64]
  else [240 + n / 262144, 128 + (n / 4096) % 64, 128 + (n / 64) % 64, 128 + n % 64]

/-- the bytes of []byte(str) -/
def utf8Bytes (s : String) : List Nat :=
  (s.data.map (fun c => utf8Char c.toNat)).flatten

/-- the dynamic value formatValue hands to fmt's "%v" verb -/
inductive GoVal where
  | gStr (s : String)
  | gInt (i : Int)
  | gUint (n : Nat)
  | gBool (b : Bool)
  | gErr (msg : String)
  | gRaw (bytes : List Nat)
  | gOpaque (goRepr : String)
  | gAttrs (cs : List SAttr)

/-- formatAnyValue: errors pass through, strings that parse as JSON are
    wrapped as json.RawMessage of their bytes, other strings pass
    through, marshalable data becomes indented JSON text, and a value
    json.MarshalIndent rejects is returned unchanged -/
def formatAnyValue : AnyVal → GoVal
  | .aErr m => .gErr m
  | .aStr s => if isJSON s then .gRaw (utf8Bytes s) else .gStr s
  | .aJson _ j => .gStr (marshalIndent2 j)
  | .aOpaque r => .gOpaque r

/-- formatValue: kind-directed formatting of a slog.Value; the group
    branch is the switch's default (v.Any() yields the []slog.Attr) and
    is unreachable from processAttr, which intercepts groups first -/
def formatValue : SValue → GoVal
  | .vString s => .gStr s
  | .vInt64 i => .gInt i
  | .vUint64 n => .gUint n
  | .vBool b => .gBool b
  | .vAny a => formatAnyValue a
  | .vGroup cs => .gAttrs cs

def joinSpace : List String → String
  | [] => ""
  | [x] => x
  | x :: y :: xs => x ++ " " ++ joinSpace (y :: xs)

/-- fmt.Sprint of an "any" payload (used only via slog's Attr.String in
    the unreachable gAttrs branch) -/
def anyDefStr : AnyVal → String
  | .aErr m => m
  | .aStr s => s
  | .aJson r _ => r
  | .aOpaque r => r

mutual

/-- slog.Value.String() -/
def slogValStr : SValue → String
  | .vString s => s
  | .vInt64 i => toString i
  | .vUint64 n => toString n
  | .vBool true => "true"
  | .vBool false => "false"
  | .vGroup cs => "[" ++ slogAttrsStr cs ++ "]"
  | .vAny a => anyDefStr a

/-- slog.Attr.String() over a list, space-separated -/
def slogAttrsStr : List SAttr → String
  | [] => ""
  | [(k, v)] => k ++ "=" ++ slogValStr v
  | (k, v) :: b :: cs => k ++ "=" ++ slogValStr v ++ " " ++ slogAttrsStr (b :: cs)

end

/-- fmt's "%v" rendering of the dynamic value: errors print their
    message, a []byte (json.RawMessage) prints as the bracketed decimal
    byte list, a slice of slog.Attr prints via the Attr Stringer -/
def fmtV : GoVal → String
  | .gStr s => s
  | .gInt i => toString i
  | .gUint n => toString n
  | .gBool true => "true"
  | .gBool false => "false"
  | .gErr m => m
  | .gRaw bs => "[" ++ joinSpace (bs.map toString) ++ "]"
  | .gOpaque r => r
  | .gAttrs cs => "[" ++ slogAttrsStr cs ++ "]"

mutual

/-- processAttr: a nested group is rendered through a temporary handler
    whose group path is extended by the group's key (capped append in the
    source), and only the children are emitted; any other attribute
    prints a space, the key, '=', and the "%v" text of its formatted
    value -/
def processAttr (gs : List String) : SAttr → String
  | (k, .vGroup cs) => processAttrList (gs ++ [k]) cs
  | (k, v) => " " ++ k ++ "=" ++ fmtV (formatValue v)

/-- processAttrs / the record-attribute loop: each attribute in order -/
def processAttrList (gs : List String) : List SAttr → String
  | [] => ""
  | a :: as => processAttr gs a ++ processAttrList gs as

end

/-! ## records, levels, the rendered line -/

/-- slog's named levels -/
def levelDebug : Int := -4
def levelInfo : Int := 0
def levelWarn : Int := 4
def levelError : Int := 8

/-- the clock components Handle reads off r.Time via Format(time.TimeOnly) -/
structure STime where
  hh : Nat
  mm : Nat
  ss : Nat

structure SRecord where
  time : STime
  level : Int
  msg : String
  attrs : List SAttr

/-- two-digit zero padding of a clock component -/
def pad2 (n : Nat) : String :=
  if n < 10 then "0" ++ toString n else toString n

/-- r.Time.Format(time.TimeOnly), the "15:04:05" layout -/
def timeOnlyStr (t : STime) : String :=
  pad2 t.hh ++ ":" ++ pad2 t.mm ++ ":" ++ pad2 t.ss

/-- the switch on r.Level choosing the level string -/
def levelTag (l : Int) : String :=
  if l = levelDebug then "DBG"
  else if l = levelInfo then "INF"
  else if l = levelWarn then "WRN"
  else if l = levelError then "ERR"
  else "???"

/-- the "%-3s" verb: left-justify to width three -/
def padTag (s : String) : String :=
  s ++ String.mk (List.replicate (3 - s.length) ' ')

/-- the group loop: each group name followed by a dot, left to right -/
def dotPath (gs : List String) : String :=
  String.join (gs.map (fun g => g ++ "."))

/-- the buffer Handle assembles before its single write: timestamp
    bracket, padded level tag, group path, message, bound attributes,
    record attributes, newline -/
def handleBody (gs : List String) (bound : List SAttr) (r : SRecord) : String :=
  "[" ++ timeOnlyStr r.time ++ "] "
    ++ padTag (levelTag r.level) ++ " "
    ++ dotPath gs
    ++ r.msg
    ++ processAttrList gs bound
    ++ processAttrList gs r.attrs
    ++ "\n"

/-! ## Go slices over explicit backing stores

A slice value is a backing-store id, an offset, a length and a capacity;
a store is the list of backing arrays.  append writes in place when the
capacity allows it and reallocates otherwise, exactly Go's semantics, so
the three-index capping in WithAttrs (and the capped append in WithGroup
and processAttr) is represented faithfully. -/

structure Slice where
  sid : Nat
  off : Nat
  len : Nat
  cap : Nat
deriving DecidableEq

/-- the backing array a store id denotes -/
def readS {α : Type} (st : List (List α)) (i : Nat) : List α :=
  st.getD i []

/-- the elements a slice value denotes -/
def view {α : Type} (st : List (List α)) (s : Slice) : List α :=
  ((readS st s.sid).drop s.off).take s.len

/-- overwrite a region of a backing array starting at index i -/
def writeAt {α : Type} (b : List α) (i : Nat) (xs : List α) : List α :=
  b.take i ++ xs ++ b.drop (i + xs.length)

/-- Go append: in place while the capacity suffices, else a fresh
    backing array holding the old elements followed by the new ones -/
def goAppend {α : Type} (st : List (List α)) (s : Slice) (xs : List α) :
    List (List α) × Slice :=
  if s.len + xs.length ≤ s.cap then
    (st.set s.sid (writeAt (readS st s.sid) (s.off + s.len) xs),
      ⟨s.sid, s.off, s.len + xs.length, s.cap⟩)
  else
    let d := view st s ++ xs
    (st ++ [d], ⟨st.length, 0, d.length, d.length⟩)

/-- the three-index expression s[:len(s):len(s)] -/
def capFull (s : Slice) : Slice := ⟨s.sid, s.off, s.len, s.len⟩

/-- make([]T, n): a fresh zeroed backing array -/
def goMake {α : Type} (st : List (List α)) (n : Nat) (z : α) :
    List (List α) × Slice :=
  (st ++ [List.replicate n z], ⟨st.length, 0, n, n⟩)

/-- copy(dst, src): overwrite dst's region with src, bounded by dst's
    length -/
def goCopy {α : Type} (st : List (List α)) (dst : Slice) (src : List α) :
    List (List α) :=
  st.set dst.sid (writeAt (readS st dst.sid) dst.off (src.take dst.len))

/-- a slice whose bookkeeping is inside its backing array -/
def WfSlice {α : Type} (st : List (List α)) (s : Slice) : Prop :=
  s.len ≤ s.cap ∧ s.off + s.cap ≤ (readS st s.sid).length ∧ s.sid < st.length

instance {α : Type} (st : List (List α)) (s : Slice) : Decidable (WfSlice st s) := by
  unfold WfSlice; infer_instance

/-! ## the handler heap: ColorHandler values, derivation, SetHook, Handle -/

/-- one ColorHandler: sink id, optional hook (identified by a number),
    group-path slice over the string store, attribute slice over the
    attribute store -/
structure HandlerState where
  writerId : Nat
  hook : Option Nat
  groups : Slice
  attrs : Slice
deriving DecidableEq

/-- the mutable state the handlers live in: the string backing stores,
    the attribute backing stores, and the allocated handlers -/
structure World where
  strs : List (List String)
  atts : List (List SAttr)
  hs : List HandlerState

def emptyWorld : World := ⟨[], [], []⟩

def defaultHandler : HandlerState := ⟨0, none, ⟨0, 0, 0, 0⟩, ⟨0, 0, 0, 0⟩⟩

def World.handler (w : World) (i : Nat) : HandlerState :=
  w.hs.getD i defaultHandler

/-- NewColorHandler(w): empty group and attribute slice literals, no hook -/
def newColorHandler (w : World) (writerId : Nat) : World × Nat :=
  let mg := goMake w.strs 0 ""
  let ma := goMake w.atts 0 ("", SValue.vBool false)
  (⟨mg.1, ma.1, w.hs ++ [⟨writerId, none, mg.2, ma.2⟩]⟩, w.hs.length)

/-- WithGroup: a new handler whose groups are make-copied then appended
    with the name, sharing the attribute slice and carrying the hook -/
def withGroup (w : World) (hid : Nat) (name : String) : World × Nat :=
  let h := w.handler hid
  let mk := goMake w.strs h.groups.len ""
  let st2 := goCopy mk.1 mk.2 (view w.strs h.groups)
  let ap := goAppend st2 mk.2 [name]
  (⟨ap.1, w.atts, w.hs ++ [⟨h.writerId, h.hook, ap.2, h.attrs⟩]⟩, w.hs.length)

/-- WithAttrs: a new handler whose attributes are the receiver's capped
    slice appended with the new ones, sharing the group slice -/
def withAttrs (w : World) (hid : Nat) (xs : List SAttr) : World × Nat :=
  let h := w.handler hid
  let ap := goAppend w.atts (capFull h.attrs) xs
  (⟨w.strs, ap.1, w.hs ++ [⟨h.writerId, h.hook, h.groups, ap.2⟩]⟩, w.hs.length)

/-- SetHook: in-place mutation of the receiver's hook field -/
def setHook (w : World) (hid : Nat) (f : Option Nat) : World :=
  ⟨w.strs, w.atts,
    w.hs.set hid
      ⟨(w.handler hid).writerId, f, (w.handler hid).groups, (w.handler hid).attrs⟩⟩

/-- the externally visible effects of one Handle call, in order -/
inductive Event where
  | hookCall (f : Nat) (r : SRecord)
  | sinkWrite (writerId : Nat) (line : String)

def Event.isHookCall : Event → Bool
  | .hookCall _ _ => true
  | _ => false

/-- Handle: the hook fires first when one is set and the level is at
    least Error, then the assembled line is written to the sink as one
    write -/
def handleEvents (w : World) (hid : Nat) (r : SRecord) : List Event :=
  (match (w.handler hid).hook with
    | some f => if levelError ≤ r.level then [Event.hookCall f r] else []
    | none => [])
  ++ [Event.sinkWrite (w.handler hid).writerId
        (handleBody (view w.strs (w.handler hid).groups)
          (view w.atts (w.handler hid).attrs) r)]

/-- Enabled: every level is accepted -/
def enabled (_w : World) (_hid : Nat) (_level : Int) : Bool := true

/-- the chained derivation H.WithGroup(a).WithGroup(b).WithGroup(c) -/
def withGroup3 (w : World) (hid : Nat) (a b c : String) : World × Nat :=
  let w1 := withGroup w hid a
  let w2 := withGroup w1.1 w1.2 b
  withGroup w2.1 w2.2 c

/-! ## concrete fixtures used by the witnesses -/

def worldA : World := (newColorHandler emptyWorld 0).1

def recInfo : SRecord :=
  ⟨⟨12, 30, 45⟩, levelInfo, "server started", [("port", SValue.vInt64 8080)]⟩

def recErr : SRecord := ⟨⟨1, 2, 3⟩, levelError, "boom", []⟩

/-- does the needle occur as a contiguous run in the haystack -/
def strHasPre : List Char → List Char → Bool
  | [], _ => true
  | _ :: _, [] => false
  | a :: ps, b :: ss => a = b && strHasPre ps ss

def containsRun (needle : List Char) : List Char → Bool
  | [] => strHasPre needle []
  | c :: hs => strHasPre needle (c :: hs) || containsRun needle hs

/-! ## store lemmas -/

theorem readS_append_lt {α : Type} (st : List (List α)) (b : List α) (i : Nat)
    (h : i < st.length) : readS (st ++ [b]) i = readS st i :=
  List.getD_append st [b] [] i h

theorem readS_append_self {α : Type} (st : List (List α)) (b : List α) :
    readS (st ++ [b]) st.length = b := by
  simp [readS, List.getD_eq_getElem?_getD, List.getElem?_append]

theorem readS_set_ne {α : Type} (st : List (List α)) (b : List α) {i j : Nat}
    (h : i ≠ j) : readS (st.set j b) i = readS st i := by
  simp only [readS, List.getD_eq_getElem?_getD, List.getElem?_set]
  rw [if_neg (fun h2 => h h2.symm)]

theorem readS_set_self {α : Type} (st : List (List α)) (b : List α) {j : Nat}
    (h : j < st.length) : readS (st.set j b) j = b := by
  simp [readS, List.getD_eq_getElem?_getD, List.getElem?_set, h]

theorem set_readS_self {α : Type} (st : List (List α)) (j : Nat) :
    st.set j (readS st j) = st := by
  induction st generalizing j with
  | nil => rfl
  | cons x xs ih =>
    cases j with
    | zero => rfl
    | succ n => simpa [readS, List.set] using ih n

theorem writeAt_nil {α : Type} (b : List α) (i : Nat) : writeAt b i [] = b := by
  simp [writeAt, List.take_append_drop]

theorem view_congr {α : Type} {st' st : List (List α)} (s : Slice)
    (h : readS st' s.sid = readS st s.sid) : view st' s = view st s := by
  simp [view, h]

theorem view_length {α : Type} {st : List (List α)} {s : Slice}
    (h : WfSlice st s) : (view st s).length = s.len := by
  obtain ⟨h1, h2, _⟩ := h
  simp only [view, List.length_take, List.length_drop]
  omega

theorem view_capFull {α : Type} (st : List (List α)) (s : Slice) :
    view st (capFull s) = view st s := rfl

/-! ## derivation lemmas: what WithGroup / WithAttrs / SetHook touch -/

theorem withGroup_snd (w : World) (hid : Nat) (name : String) :
    (withGroup w hid name).2 = w.hs.length := rfl

theorem withGroup_atts (w : World) (hid : Nat) (name : String) :
    (withGroup w hid name).1.atts = w.atts := rfl

theorem withGroup_handler_old (w : World) (hid : Nat) (name : String)
    (j : Nat) (hj : j < w.hs.length) :
    (withGroup w hid name).1.handler j = w.handler j := by
  simp only [withGroup, World.handler]
  exact List.getD_append _ _ _ j hj

theorem withGroup_strs_pres (w : World) (hid : Nat) (name : String)
    (i : Nat) (hi : i < w.strs.length) :
    readS (withGroup w hid name).1.strs i = readS w.strs i := by
  simp only [withGroup, goCopy, goAppend, goMake]
  split
  · -- in-place append of [name] would need room, impossible after capping
    rename_i hc
    simp at hc
  · rw [readS_append_lt _ _ _ (by simp; omega), readS_set_ne _ _ (by omega),
      readS_append_lt _ _ _ hi]

theorem getD_append_self2 {β : Type} (l : List β) (x d : β) :
    (l ++ [x]).getD l.length d = x := by
  simp [List.getD_eq_getElem?_getD, List.getElem?_append]

/-- the make-copy-append sequence WithGroup performs: a fresh backing
    array receives the old view, and appending the name reallocates
    because the fresh slice is full, yielding view ++ [name] -/
theorem makeCopyAppend {α : Type} (st : List (List α)) (s : Slice) (z : α) (x : α)
    (hwf : WfSlice st s) :
    goAppend (goCopy (goMake st s.len z).1 (goMake st s.len z).2 (view st s))
        (goMake st s.len z).2 [x]
      = ((st ++ [List.replicate s.len z]).set st.length (view st s)
            ++ [view st s ++ [x]],
         ⟨st.length + 1, 0, s.len + 1, s.len + 1⟩)
    ∧ view ((st ++ [List.replicate s.len z]).set st.length (view st s)
            ++ [view st s ++ [x]])
        ⟨st.length + 1, 0, s.len + 1, s.len + 1⟩ = view st s ++ [x]
    ∧ WfSlice ((st ++ [List.replicate s.len z]).set st.length (view st s)
            ++ [view st s ++ [x]])
        ⟨st.length + 1, 0, s.len + 1, s.len + 1⟩ := by
  have hVlen := view_length hwf
  generalize hV : view st s = V at hVlen ⊢
  have htake : V.take s.len = V := by rw [← hVlen, List.take_length]
  have hwrite : writeAt (List.replicate s.len z) 0 V = V := by
    simp [writeAt, hVlen, List.drop_replicate]
  have hcopy : goCopy (goMake st s.len z).1 (goMake st s.len z).2 V
      = (st ++ [List.replicate s.len z]).set st.length V := by
    simp only [goCopy, goMake]
    rw [readS_append_self, htake, hwrite]
  have hlen2 : ((st ++ [List.replicate s.len z]).set st.length V).length
      = st.length + 1 := by simp
  have hread : readS ((st ++ [List.replicate s.len z]).set st.length V) st.length
      = V := readS_set_self _ _ (by simp)
  have hview2 : view ((st ++ [List.replicate s.len z]).set st.length V)
      (goMake st s.len z).2 = V := by
    simp only [view, goMake]
    rw [hread, List.drop_zero, htake]
  have happ : goAppend ((st ++ [List.replicate s.len z]).set st.length V)
        (goMake st s.len z).2 [x]
      = ((st ++ [List.replicate s.len z]).set st.length V ++ [V ++ [x]],
         ⟨st.length + 1, 0, s.len + 1, s.len + 1⟩) := by
    simp only [goAppend]
    rw [if_neg (by simp [goMake])]
    rw [hview2, Prod.mk.injEq]
    refine ⟨rfl, ?_⟩
    rw [Slice.mk.injEq]
    exact ⟨hlen2, rfl, by simp [hVlen], by simp [hVlen]⟩
  have hreadNew : readS ((st ++ [List.replicate s.len z]).set st.length V
      ++ [V ++ [x]]) (st.length + 1) = V ++ [x] := by
    rw [← hlen2, readS_append_self]
  refine ⟨by rw [hcopy, happ], ?_, ?_⟩
  · show List.take (s.len + 1) (List.drop 0 (readS _ (st.length + 1))) = V ++ [x]
    rw [hreadNew, List.drop_zero]
    rw [show s.len + 1 = (V ++ [x]).length by simp [hVlen], List.take_length]
  · refine ⟨le_refl _, ?_, by simp⟩
    show 0 + (s.len + 1) ≤ (readS _ (st.length + 1)).length
    rw [hreadNew]
    simp [hVlen]

/-- the handler WithGroup allocates: same sink, hook and attribute
    slice, and a fresh full group slice whose view is the old group
    path followed by the new name -/
theorem withGroup_new (w : World) (hid : Nat) (name : String)
    (hwf : WfSlice w.strs (w.handler hid).groups) :
    (withGroup w hid name).1.handler (withGroup w hid name).2
      = ⟨(w.handler hid).writerId, (w.handler hid).hook,
          ⟨w.strs.length + 1, 0, (w.handler hid).groups.len + 1,
            (w.handler hid).groups.len + 1⟩, (w.handler hid).attrs⟩
    ∧ view (withGroup w hid name).1.strs
        ((withGroup w hid name).1.handler (withGroup w hid name).2).groups
      = view w.strs (w.handler hid).groups ++ [name]
    ∧ WfSlice (withGroup w hid name).1.strs
        ((withGroup w hid name).1.handler (withGroup w hid name).2).groups := by
  obtain ⟨heq, hvw, hwf2⟩ := makeCopyAppend w.strs (w.handler hid).groups "" name hwf
  have hnew : (withGroup w hid name).1.handler (withGroup w hid name).2
      = ⟨(w.handler hid).writerId, (w.handler hid).hook,
          ⟨w.strs.length + 1, 0, (w.handler hid).groups.len + 1,
            (w.handler hid).groups.len + 1⟩, (w.handler hid).attrs⟩ := by
    show (withGroup w hid name).1.hs.getD (withGroup w hid name).2 defaultHandler = _
    simp only [withGroup, heq]
    exact getD_append_self2 _ _ _
  have hstrs : (withGroup w hid name).1.strs
      = (w.strs ++ [List.replicate (w.handler hid).groups.len ""]).set w.strs.length
          (view w.strs (w.handler hid).groups)
        ++ [view w.strs (w.handler hid).groups ++ [name]] := by
    show (goAppend (goCopy (goMake w.strs (w.handler hid).groups.len "").1
        (goMake w.strs (w.handler hid).groups.len "").2
        (view w.strs (w.handler hid).groups))
        (goMake w.strs (w.handler hid).groups.len "").2 [name]).1 = _
    rw [heq]
  refine ⟨hnew, ?_, ?_⟩
  · rw [hnew, hstrs]
    exact hvw
  · rw [hnew, hstrs]
    exact hwf2

theorem withAttrs_snd (w : World) (hid : Nat) (xs : List SAttr) :
    (withAttrs w hid xs).2 = w.hs.length := rfl

theorem withAttrs_strs (w : World) (hid : Nat) (xs : List SAttr) :
    (withAttrs w hid xs).1.strs = w.strs := rfl

theorem withAttrs_handler_old (w : World) (hid : Nat) (xs : List SAttr)
    (j : Nat) (hj : j < w.hs.length) :
    (withAttrs w hid xs).1.handler j = w.handler j := by
  simp only [withAttrs, World.handler]
  exact List.getD_append _ _ _ j hj

theorem withAttrs_atts_pres (w : World) (hid : Nat) (xs : List SAttr)
    (i : Nat) (hi : i < w.atts.length) :
    readS (withAttrs w hid xs).1.atts i = readS w.atts i := by
  simp only [withAttrs, goAppend]
  split
  · rename_i hc
    have hxs : xs = [] := by
      cases xs with
      | nil => rfl
      | cons y ys => simp [capFull] at hc
    subst hxs
    rw [writeAt_nil, set_readS_self]
  · exact readS_append_lt _ _ _ (by omega)

theorem setHook_strs (w : World) (hid : Nat) (f : Option Nat) :
    (setHook w hid f).strs = w.strs := rfl

theorem setHook_atts (w : World) (hid : Nat) (f : Option Nat) :
    (setHook w hid f).atts = w.atts := rfl

theorem setHook_handler_ne (w : World) (hid : Nat) (f : Option Nat)
    (j : Nat) (hj : j ≠ hid) :
    (setHook w hid f).handler j = w.handler j := by
  simp only [setHook, World.handler, List.getD_eq_getElem?_getD, List.getElem?_set]
  rw [if_neg (fun h => hj h.symm)]

theorem handleEvents_congr (w' w : World) (hid : Nat) (r : SRecord)
    (hh : w'.handler hid = w.handler hid)
    (hg : readS w'.strs (w.handler hid).groups.sid
        = readS w.strs (w.handler hid).groups.sid)
    (ha : readS w'.atts (w.handler hid).attrs.sid
        = readS w.atts (w.handler hid).attrs.sid) :
    handleEvents w' hid r = handleEvents w hid r := by
  simp only [handleEvents, hh,
    view_congr (w.handler hid).groups hg, view_congr (w.handler hid).attrs ha]

/-! ## attribute rendering is independent of the ambient group path -/

theorem processAttr_gs_irrel (gs0 : List String) (a0 : SAttr)
    (gs0' : List String) : processAttr gs0 a0 = processAttr gs0' a0 := by
  refine processAttr.induct
    (fun gs a => ∀ gs2, processAttr gs a = processAttr gs2 a)
    (fun gs l => ∀ gs2, processAttrList gs l = processAttrList gs2 l)
    ?_ ?_ ?_ ?_ gs0 a0 gs0'
  · intro gs k cs ih gs2
    simp only [processAttr]
    exact (ih (gs2 ++ [k])).trans rfl
  · intro gs k v hng gs2
    cases v with
    | vString s => simp [processAttr]
    | vInt64 i => simp [processAttr]
    | vUint64 n => simp [processAttr]
    | vBool b => simp [processAttr]
    | vAny a => simp [processAttr]
    | vGroup cs => exact absurd rfl (fun h => hng cs h)
  · intro gs gs2
    simp [processAttrList]
  · intro gs a as ih1 ih2 gs2
    simp only [processAttrList]
    rw [ih1 gs2, ih2 gs2]

theorem processAttrList_gs_irrel (gs : List String) (l : List SAttr)
    (gs' : List String) : processAttrList gs l = processAttrList gs' l := by
  induction l with
  | nil => simp [processAttrList]
  | cons a as ih =>
    simp only [processAttrList]
    rw [processAttr_gs_irrel gs a gs', ih]

/-! ## claims -/

/-- C1: deriving via WithGroup or WithAttrs never changes the receiver:
    its group-path view and bound-attribute view are untouched for any
    capacity of its slices (in particular with spare backing capacity,
    since WithAttrs caps the receiver's slice before appending), so the
    receiver's subsequent dispatch trace is unchanged. -/
theorem c1_isolation_under_derivation (w : World) (hid : Nat) (g : String)
    (xs : List SAttr) (r : SRecord)
    (hh : hid < w.hs.length)
    (hgs : (w.handler hid).groups.sid < w.strs.length)
    (has : (w.handler hid).attrs.sid < w.atts.length) :
    (view (withGroup w hid g).1.strs (w.handler hid).groups
        = view w.strs (w.handler hid).groups
      ∧ view (withGroup w hid g).1.atts (w.handler hid).attrs
        = view w.atts (w.handler hid).attrs
      ∧ handleEvents (withGroup w hid g).1 hid r = handleEvents w hid r)
    ∧ (view (withAttrs w hid xs).1.strs (w.handler hid).groups
        = view w.strs (w.handler hid).groups
      ∧ view (withAttrs w hid xs).1.atts (w.handler hid).attrs
        = view w.atts (w.handler hid).attrs
      ∧ handleEvents (withAttrs w hid xs).1 hid r = handleEvents w hid r) := by
  have hg1 := withGroup_strs_pres w hid g _ hgs
  have hg2 : (withGroup w hid g).1.atts = w.atts := withGroup_atts w hid g
  have hg3 := withGroup_handler_old w hid g hid hh
  have ha1 : (withAttrs w hid xs).1.strs = w.strs := withAttrs_strs w hid xs
  have ha2 := withAttrs_atts_pres w hid xs _ has
  have ha3 := withAttrs_handler_old w hid xs hid hh
  refine ⟨⟨view_congr _ hg1, by rw [hg2], ?_⟩, ⟨by rw [ha1], view_congr _ ha2, ?_⟩⟩
  · exact handleEvents_congr _ _ _ _ hg3 hg1 (by rw [hg2])
  · exact handleEvents_congr _ _ _ _ ha3 (by rw [ha1]) ha2

/-- Witness for C1: the root handler of a freshly created world, a group
    name, one bound attribute, and the info record. -/
theorem c1_isolation_witness :
    (0 < worldA.hs.length
      ∧ (worldA.handler 0).groups.sid < worldA.strs.length
      ∧ (worldA.handler 0).attrs.sid < worldA.atts.length)
    ∧ handleEvents (withGroup worldA 0 "http").1 0 recInfo
      = handleEvents worldA 0 recInfo
    ∧ handleEvents (withAttrs worldA 0 [("service", SValue.vString "api")]).1 0 recInfo
      = handleEvents worldA 0 recInfo :=
  ⟨⟨by decide, by decide, by decide⟩,
    (c1_isolation_under_derivation worldA 0 "http"
      [("service", SValue.vString "api")] recInfo
      (by decide) (by decide) (by decide)).1.2.2,
    (c1_isolation_under_derivation worldA 0 "http"
      [("service", SValue.vString "api")] recInfo
      (by decide) (by decide) (by decide)).2.2.2⟩

/-! ## hook lemmas -/

theorem handleEvents_no_hook (w : World) (hid : Nat) (r : SRecord)
    (h : (w.handler hid).hook = none) :
    (handleEvents w hid r).filter Event.isHookCall = [] := by
  simp [handleEvents, h, Event.isHookCall]

theorem withGroup_new_hook (w : World) (hid : Nat) (g : String) :
    ((withGroup w hid g).1.handler (withGroup w hid g).2).hook
      = (w.handler hid).hook := by
  show ((withGroup w hid g).1.hs.getD (withGroup w hid g).2 defaultHandler).hook = _
  simp only [withGroup]
  rw [getD_append_self2]

theorem withAttrs_new_hook (w : World) (hid : Nat) (xs : List SAttr) :
    ((withAttrs w hid xs).1.handler (withAttrs w hid xs).2).hook
      = (w.handler hid).hook := by
  show ((withAttrs w hid xs).1.hs.getD (withAttrs w hid xs).2 defaultHandler).hook = _
  simp only [withAttrs]
  rw [getD_append_self2]

theorem withGroup_hs_len (w : World) (hid : Nat) (g : String) :
    (withGroup w hid g).1.hs.length = w.hs.length + 1 := by
  simp [withGroup]

theorem withAttrs_hs_len (w : World) (hid : Nat) (xs : List SAttr) :
    (withAttrs w hid xs).1.hs.length = w.hs.length + 1 := by
  simp [withAttrs]

/-- C10: the hook reference is copied when a handler is derived:
    SetHook on the receiver afterwards leaves the derived handler's hook
    at its derivation-time value and vice versa, so a hook installed on
    the root after deriving never fires for dispatches through the
    derived handler. -/
theorem c10_hook_not_shared_after_derivation (w : World) (hid : Nat)
    (g : String) (xs : List SAttr) (f : Nat) (r : SRecord)
    (hh : hid < w.hs.length) :
    (((setHook (withGroup w hid g).1 hid (some f)).handler
          (withGroup w hid g).2).hook = (w.handler hid).hook
      ∧ ((setHook (withGroup w hid g).1 (withGroup w hid g).2 (some f)).handler
          hid).hook = (w.handler hid).hook
      ∧ ((w.handler hid).hook = none →
          (handleEvents (setHook (withGroup w hid g).1 hid (some f))
              (withGroup w hid g).2 r).filter Event.isHookCall = []))
    ∧ (((setHook (withAttrs w hid xs).1 hid (some f)).handler
          (withAttrs w hid xs).2).hook = (w.handler hid).hook
      ∧ ((setHook (withAttrs w hid xs).1 (withAttrs w hid xs).2 (some f)).handler
          hid).hook = (w.handler hid).hook
      ∧ ((w.handler hid).hook = none →
          (handleEvents (setHook (withAttrs w hid xs).1 hid (some f))
              (withAttrs w hid xs).2 r).filter Event.isHookCall = [])) := by
  have hne : (withGroup w hid g).2 ≠ hid := by
    rw [withGroup_snd]; omega
  have hne2 : (withAttrs w hid xs).2 ≠ hid := by
    rw [withAttrs_snd]; omega
  have e1 : (setHook (withGroup w hid g).1 hid (some f)).handler
      (withGroup w hid g).2 = (withGroup w hid g).1.handler (withGroup w hid g).2 :=
    setHook_handler_ne _ _ _ _ hne
  have e2 : (setHook (withAttrs w hid xs).1 hid (some f)).handler
      (withAttrs w hid xs).2 = (withAttrs w hid xs).1.handler (withAttrs w hid xs).2 :=
    setHook_handler_ne _ _ _ _ hne2
  refine ⟨⟨?_, ?_, ?_⟩, ⟨?_, ?_, ?_⟩⟩
  · rw [e1, withGroup_new_hook]
  · rw [setHook_handler_ne _ _ _ _ (fun h => hne h.symm),
      withGroup_handler_old w hid g hid hh]
  · intro h0
    exact handleEvents_no_hook _ _ _ (by rw [e1, withGroup_new_hook, h0])
  · rw [e2, withAttrs_new_hook]
  · rw [setHook_handler_ne _ _ _ _ (fun h => hne2 h.symm),
      withAttrs_handler_old w hid xs hid hh]
  · intro h0
    exact handleEvents_no_hook _ _ _ (by rw [e2, withAttrs_new_hook, h0])

/-- Witness for C10: installing hook 7 on the root after deriving; the
    derived handler still fires nothing, even for an Error record. -/
theorem c10_hook_witness :
    (0 < worldA.hs.length ∧ (worldA.handler 0).hook = none)
    ∧ (handleEvents (setHook (withGroup worldA 0 "http").1 0 (some 7))
        (withGroup worldA 0 "http").2 recErr).filter Event.isHookCall = []
    ∧ (handleEvents (setHook (withAttrs worldA 0 [("k", SValue.vBool true)]).1
          0 (some 7))
        (withAttrs worldA 0 [("k", SValue.vBool true)]).2 recErr).filter
        Event.isHookCall = [] :=
  ⟨⟨by decide, by decide⟩,
    (c10_hook_not_shared_after_derivation worldA 0 "http"
      [("k", SValue.vBool true)] 7 recErr (by decide)).1.2.2 (by decide),
    (c10_hook_not_shared_after_derivation worldA 0 "http"
      [("k", SValue.vBool true)] 7 recErr (by decide)).2.2.2 (by decide)⟩

/-- C5: H.WithGroup(a).WithGroup(b).WithGroup(c) appends the three
    names in order to the group path; for a root handler the rendered
    line carries exactly the prefix a.b.c. — each segment followed by a
    dot, no other separators — between the level tag and the message. -/
theorem c5_group_path_concatenation (w : World) (hid : Nat)
    (a b c : String) (r : SRecord)
    (hwf : WfSlice w.strs (w.handler hid).groups) :
    view (withGroup3 w hid a b c).1.strs
        ((withGroup3 w hid a b c).1.handler (withGroup3 w hid a b c).2).groups
      = view w.strs (w.handler hid).groups ++ [a, b, c]
    ∧ (view w.strs (w.handler hid).groups = [] →
        handleBody
            (view (withGroup3 w hid a b c).1.strs
              ((withGroup3 w hid a b c).1.handler (withGroup3 w hid a b c).2).groups)
            (view (withGroup3 w hid a b c).1.atts
              ((withGroup3 w hid a b c).1.handler (withGroup3 w hid a b c).2).attrs)
            r
          = "[" ++ timeOnlyStr r.time ++ "] " ++ padTag (levelTag r.level) ++ " "
            ++ a ++ "." ++ b ++ "." ++ c ++ "." ++ r.msg
            ++ processAttrList [a, b, c]
                (view (withGroup3 w hid a b c).1.atts
                  ((withGroup3 w hid a b c).1.handler (withGroup3 w hid a b c).2).attrs)
            ++ processAttrList [a, b, c] r.attrs ++ "\n") := by
  obtain ⟨e1, v1, wf1⟩ := withGroup_new w hid a hwf
  obtain ⟨e2, v2, wf2⟩ := withGroup_new (withGroup w hid a).1 (withGroup w hid a).2 b wf1
  obtain ⟨e3, v3, wf3⟩ := withGroup_new
    (withGroup (withGroup w hid a).1 (withGroup w hid a).2 b).1
    (withGroup (withGroup w hid a).1 (withGroup w hid a).2 b).2 c wf2
  have hv : view (withGroup3 w hid a b c).1.strs
      ((withGroup3 w hid a b c).1.handler (withGroup3 w hid a b c).2).groups
      = view w.strs (w.handler hid).groups ++ [a, b, c] := by
    simp only [withGroup3]
    rw [v3, v2, v1]
    simp
  refine ⟨hv, fun h0 => ?_⟩
  rw [hv, h0]
  rw [show ([] : List String) ++ [a, b, c] = [a, b, c] from List.nil_append _]
  simp only [handleBody, dotPath, List.map, String.join, List.foldl]
  simp [String.append_assoc, String.empty_append]

/-- Witness for C5 on a root handler with the names a, b, c. -/
theorem c5_group_path_witness :
    (WfSlice worldA.strs (worldA.handler 0).groups
      ∧ view worldA.strs (worldA.handler 0).groups = [])
    ∧ view (withGroup3 worldA 0 "a" "b" "c").1.strs
        ((withGroup3 worldA 0 "a" "b" "c").1.handler
          (withGroup3 worldA 0 "a" "b" "c").2).groups
      = view worldA.strs (worldA.handler 0).groups ++ ["a", "b", "c"]
    ∧ handleBody
        (view (withGroup3 worldA 0 "a" "b" "c").1.strs
          ((withGroup3 worldA 0 "a" "b" "c").1.handler
            (withGroup3 worldA 0 "a" "b" "c").2).groups)
        (view (withGroup3 worldA 0 "a" "b" "c").1.atts
          ((withGroup3 worldA 0 "a" "b" "c").1.handler
            (withGroup3 worldA 0 "a" "b" "c").2).attrs)
        recInfo
      = "[" ++ timeOnlyStr recInfo.time ++ "] "
        ++ padTag (levelTag recInfo.level) ++ " "
        ++ "a" ++ "." ++ "b" ++ "." ++ "c" ++ "." ++ recInfo.msg
        ++ processAttrList ["a", "b", "c"]
            (view (withGroup3 worldA 0 "a" "b" "c").1.atts
              ((withGroup3 worldA 0 "a" "b" "c").1.handler
                (withGroup3 worldA 0 "a" "b" "c").2).attrs)
        ++ processAttrList ["a", "b", "c"] recInfo.attrs ++ "\n" :=
  ⟨⟨by decide, by decide⟩,
    (c5_group_path_concatenation worldA 0 "a" "b" "c" recInfo (by decide)).1,
    (c5_group_path_concatenation worldA 0 "a" "b" "c" recInfo (by decide)).2
      (by decide)⟩

/-- C3: a dispatch writes exactly one line: bracketed HH:MM:SS and a
    space, the three-character level tag and a space (the width-3
    padding adds nothing), the group prefix, the message, the bound
    attributes in accumulation order, the record attributes in record
    order, and a single trailing newline; concretely an Info record
    "server started" with port=8080 renders
    "[HH:MM:SS] INF server started port=8080\n" for its instant. -/
theorem c3_dispatch_line_format :
    (∀ (gs : List String) (bound : List SAttr) (r : SRecord),
      handleBody gs bound r
        = "[" ++ timeOnlyStr r.time ++ "] " ++ padTag (levelTag r.level) ++ " "
          ++ dotPath gs ++ r.msg ++ processAttrList gs bound
          ++ processAttrList gs r.attrs ++ "\n")
    ∧ (∀ l : Int, padTag (levelTag l) = levelTag l)
    ∧ (∀ (w : World) (hid : Nat) (r : SRecord), ∃ pre,
        handleEvents w hid r
          = pre ++ [Event.sinkWrite (w.handler hid).writerId
              (handleBody (view w.strs (w.handler hid).groups)
                (view w.atts (w.handler hid).attrs) r)])
    ∧ (∀ t : STime,
        handleBody [] [] ⟨t, levelInfo, "server started",
            [("port", SValue.vInt64 8080)]⟩
          = "[" ++ timeOnlyStr t ++ "] INF server started port=8080\n") := by
  refine ⟨fun gs bound r => rfl, ?_, fun w hid r => ⟨_, rfl⟩, ?_⟩
  · intro l
    unfold levelTag padTag
    split_ifs <;> rfl
  · intro t
    simp only [handleBody, dotPath, List.map, String.join, List.foldl,
      processAttrList, processAttr, formatValue, fmtV]
    simp only [String.append_assoc, String.empty_append, String.append_empty]
    congr 1

/-- C6: the level tag is DBG, INF, WRN, ERR on the four canonical slog
    levels and exactly ??? on every other integer level; every tag is
    three characters and every record still renders to a line. -/
theorem c6_level_tag_totality :
    (levelTag levelDebug = "DBG" ∧ levelTag levelInfo = "INF"
      ∧ levelTag levelWarn = "WRN" ∧ levelTag levelError = "ERR"
      ∧ ∀ l : Int, (levelTag l).length = 3)
    ∧ (∀ l : Int, l ≠ levelDebug → l ≠ levelInfo → l ≠ levelWarn →
        l ≠ levelError → levelTag l = "???")
    ∧ (∀ (w : World) (hid : Nat) (r : SRecord), ∃ line : String,
        handleEvents w hid r
          = (handleEvents w hid r).dropLast
            ++ [Event.sinkWrite (w.handler hid).writerId line]) := by
  refine ⟨⟨rfl, rfl, rfl, rfl, ?_⟩, ?_, ?_⟩
  · intro l
    unfold levelTag
    split_ifs <;> rfl
  · intro l h1 h2 h3 h4
    simp [levelTag, h1, h2, h3, h4]
  · intro w hid r
    refine ⟨handleBody (view w.strs (w.handler hid).groups)
      (view w.atts (w.handler hid).attrs) r, ?_⟩
    unfold handleEvents
    cases (w.handler hid).hook with
    | none => rfl
    | some f =>
      by_cases hl : levelError ≤ r.level
      · simp [hl]
      · simp [hl]

/-- Witness for C6 at the far-out sentinel level 1000. -/
theorem c6_level_tag_witness :
    ((1000 : Int) ≠ levelDebug ∧ (1000 : Int) ≠ levelInfo
      ∧ (1000 : Int) ≠ levelWarn ∧ (1000 : Int) ≠ levelError)
    ∧ levelTag 1000 = "???" :=
  ⟨⟨by decide, by decide, by decide, by decide⟩,
    c6_level_tag_totality.2.1 1000 (by decide) (by decide) (by decide) (by decide)⟩

/-- C7: the hook fires exactly when one is set and the level is at
    least Error, and then as the first event, before the write; it
    never fires below Error; with no hook set the dispatch is the
    single write. -/
theorem c7_hook_gating (w : World) (hid : Nat) (r : SRecord) :
    (∀ f, (w.handler hid).hook = some f → levelError ≤ r.level →
      handleEvents w hid r
        = [Event.hookCall f r,
           Event.sinkWrite (w.handler hid).writerId
             (handleBody (view w.strs (w.handler hid).groups)
               (view w.atts (w.handler hid).attrs) r)])
    ∧ (r.level < levelError →
        (handleEvents w hid r).filter Event.isHookCall = [])
    ∧ ((w.handler hid).hook = none →
        handleEvents w hid r
          = [Event.sinkWrite (w.handler hid).writerId
              (handleBody (view w.strs (w.handler hid).groups)
                (view w.atts (w.handler hid).attrs) r)])
    ∧ ((handleEvents w hid r).filter Event.isHookCall ≠ [] ↔
        (w.handler hid).hook.isSome = true ∧ levelError ≤ r.level) := by
  refine ⟨?_, ?_, ?_, ?_⟩
  · intro f hf hl
    simp [handleEvents, hf, hl]
  · intro hl
    unfold handleEvents
    cases (w.handler hid).hook with
    | none => simp [Event.isHookCall]
    | some f => simp [Event.isHookCall, not_le.mpr hl]
  · intro h0
    simp [handleEvents, h0]
  · unfold handleEvents
    cases (w.handler hid).hook with
    | none => simp [Event.isHookCall]
    | some f =>
      by_cases hl : levelError ≤ r.level
      · simp [Event.isHookCall, hl]
      · simp [Event.isHookCall, hl]

/-- Witness for C7: hook 5 installed, an Error record fires it first,
    then the write. -/
theorem c7_hook_gating_witness :
    (((setHook worldA 0 (some 5)).handler 0).hook = some 5
      ∧ levelError ≤ recErr.level)
    ∧ handleEvents (setHook worldA 0 (some 5)) 0 recErr
      = [Event.hookCall 5 recErr,
         Event.sinkWrite ((setHook worldA 0 (some 5)).handler 0).writerId
           (handleBody
             (view (setHook worldA 0 (some 5)).strs
               ((setHook worldA 0 (some 5)).handler 0).groups)
             (view (setHook worldA 0 (some 5)).atts
               ((setHook worldA 0 (some 5)).handler 0).attrs) recErr)] :=
  ⟨⟨by decide, by decide⟩,
    (c7_hook_gating (setHook worldA 0 (some 5)) 0 recErr).1 5
      (by decide) (by decide)⟩

/-- C9: a group-valued attribute never emits its own key: its rendering
    is exactly its children rendered in input order (and is independent
    of the group key); the concrete user group with name and id renders
    " name=Alice id=7" with no "user=" run in the output. -/
theorem c9_group_attr_children_only :
    (∀ (gs : List String) (k : String) (cs : List (String × SValue)),
      processAttr gs (k, SValue.vGroup cs) = processAttrList (gs ++ [k]) cs)
    ∧ (∀ (gs : List String) (k k2 : String) (cs : List (String × SValue)),
      processAttr gs (k, SValue.vGroup cs) = processAttr gs (k2, SValue.vGroup cs))
    ∧ (∀ (gs : List String) (a : SAttr) (l : List SAttr),
      processAttrList gs (a :: l) = processAttr gs a ++ processAttrList gs l)
    ∧ processAttr [] ("user", SValue.vGroup
        [("name", SValue.vString "Alice"), ("id", SValue.vInt64 7)])
      = " name=Alice id=7"
    ∧ containsRun "user=".data
        (processAttr [] ("user", SValue.vGroup
          [("name", SValue.vString "Alice"), ("id", SValue.vInt64 7)])).data
      = false := by
  have h1 : ∀ (gs : List String) (k : String) (cs : List (String × SValue)),
      processAttr gs (k, SValue.vGroup cs) = processAttrList (gs ++ [k]) cs := by
    intro gs k cs
    simp [processAttr]
  have h4 : processAttr [] ("user", SValue.vGroup
      [("name", SValue.vString "Alice"), ("id", SValue.vInt64 7)])
      = " name=Alice id=7" := by
    simp only [processAttr, processAttrList, formatValue, fmtV]
    rfl
  refine ⟨h1, ?_, ?_, h4, ?_⟩
  · intro gs k k2 cs
    rw [h1, h1]
    exact processAttrList_gs_irrel _ _ _
  · intro gs a l
    simp [processAttrList]
  · rw [h4]
    decide

/-- C2 fails on the code: an "any" payload string that parses as JSON
    is wrapped as json.RawMessage — a byte slice — and fmt's "%v" verb
    prints a byte slice as its bracketed decimal bytes, not as the raw
    JSON text; a non-JSON string does render verbatim.  This theorem
    evaluates the embedding at the failing input. -/
theorem c2_json_string_rendered_as_byte_list :
    isJSON "\x7b\"key\":\"value\"\x7d" = true
    ∧ fmtV (formatValue (SValue.vAny (AnyVal.aStr "\x7b\"key\":\"value\"\x7d")))
      = "[123 34 107 101 121 34 58 34 118 97 108 117 101 34 125]"
    ∧ fmtV (formatValue (SValue.vAny (AnyVal.aStr "\x7b\"key\":\"value\"\x7d")))
      ≠ "\x7b\"key\":\"value\"\x7d"
    ∧ fmtV (formatValue (SValue.vAny (AnyVal.aStr "not json"))) = "not json"
    ∧ processAttr [] ("data", SValue.vAny (AnyVal.aStr "\x7b\"key\":\"value\"\x7d"))
      = " data=[123 34 107 101 121 34 58 34 118 97 108 117 101 34 125]" := by
  refine ⟨rfl, rfl, by decide, rfl, ?_⟩
  simp only [processAttr, formatValue]
  rfl

/-- C8: an "any" payload that is neither an error nor a string is
    either marshalable — then it becomes MarshalIndent's two-space
    indented JSON text — or rejected by the marshaller — then the
    original value is returned unchanged; formatting is total and the
    concrete two-field object shows the indent layout. -/
theorem c8_any_payload_serialization (a : AnyVal)
    (hne : a.isErrVal = false) (hns : a.isStrVal = false) :
    ((∃ rp j, a = AnyVal.aJson rp j) ∨ ∃ rp, a = AnyVal.aOpaque rp)
    ∧ (∀ (rp : String) (j : Json), a = AnyVal.aJson rp j →
      formatAnyValue a = GoVal.gStr (marshalIndent2 j))
    ∧ (∀ rp : String, a = AnyVal.aOpaque rp →
      formatAnyValue a = GoVal.gOpaque rp)
    ∧ (∃ s : String, fmtV (formatAnyValue a) = s)
    ∧ marshalIndent2 (Json.jObj [("name", Json.jStr "Bob"), ("age", Json.jInt 30)])
      = "\x7b\n  \"name\": \"Bob\",\n  \"age\": 30\n\x7d" := by
  refine ⟨?_, ?_, ?_, ⟨_, rfl⟩, ?_⟩
  · cases a with
    | aErr m => exact absurd hne (by simp [AnyVal.isErrVal])
    | aStr s => exact absurd hns (by simp [AnyVal.isStrVal])
    | aJson rp j => exact Or.inl ⟨rp, j, rfl⟩
    | aOpaque rp => exact Or.inr ⟨rp, rfl⟩
  · rintro rp j rfl
    simp [formatAnyValue]
  · rintro rp rfl
    simp [formatAnyValue]
  · simp only [marshalIndent2, mVal, mFields, qstr, indentN]
    rfl

/-- Witness for C8 on a marshalable two-field object. -/
theorem c8_any_payload_witness :
    ((AnyVal.aJson "rep" (Json.jObj [("name", Json.jStr "Bob"),
        ("age", Json.jInt 30)])).isErrVal = false
      ∧ (AnyVal.aJson "rep" (Json.jObj [("name", Json.jStr "Bob"),
          ("age", Json.jInt 30)])).isStrVal = false)
    ∧ formatAnyValue (AnyVal.aJson "rep" (Json.jObj [("name", Json.jStr "Bob"),
        ("age", Json.jInt 30)]))
      = GoVal.gStr (marshalIndent2 (Json.jObj [("name", Json.jStr "Bob"),
          ("age", Json.jInt 30)])) :=
  ⟨⟨rfl, rfl⟩,
    (c8_any_payload_serialization
      (AnyVal.aJson "rep" (Json.jObj [("name", Json.jStr "Bob"),
        ("age", Json.jInt 30)])) rfl rfl).2.1 "rep" _ rfl⟩

end SlogColor
